import Mathlib

/-!
Verification development for the warehouse spreadsheet back end
(warehouseback.py).  The Python handlers are shallowly embedded as pure
Lean functions over an explicit workbook state: spreadsheet cells are a
tagged union (empty / text / other), row-oriented sheets are row lists,
the map grid is an extent plus a cell function, and every handler body is
translated statement by statement.  Exceptions that reach a handler's
except-block are modelled with Except.  Line references are to
warehouseback.py.
-/

namespace Warehouse

/-! ## Python string primitives -/

/-- Whitespace characters stripped by Python str.strip() (ASCII subset;
the program's data never contains the non-ASCII Unicode spaces). -/
def isPySpace (c : Char) : Bool :=
  c = ' ' || c = '\t' || c = '\n' || c = '\r' || c = '\x0b' || c = '\x0c'

/-- Python str.strip(). -/
def pyStrip (s : String) : String :=
  ⟨((s.data.dropWhile isPySpace).reverse.dropWhile isPySpace).reverse⟩

/-- Python str.lower() (ASCII case mapping; the program's queries and
fields are compared only on ASCII letters). -/
def pyLower (s : String) : String :=
  ⟨s.data.map Char.toLower⟩

/-- Python s.startswith(p). -/
def pyStartswith (s p : String) : Bool :=
  p.data.isPrefixOf s.data

/-- Python str.split(sep) for a one-character separator, on the character
list: a right fold that opens a new chunk at each separator. -/
def pySplitList (sep : Char) : List Char → List (List Char)
  | [] => [[]]
  | c :: rest =>
    match pySplitList sep rest with
    | [] => [[]]
    | h :: t => if c = sep then [] :: h :: t else (c :: h) :: t

/-- Python str.split(sep) for a one-character separator. -/
def pySplit (sep : Char) (s : String) : List String :=
  (pySplitList sep s.data).map fun l => ⟨l⟩

/-- Decimal digit character for a digit below 10. -/
def digitChr : Nat → Char
  | 0 => '0' | 1 => '1' | 2 => '2' | 3 => '3' | 4 => '4'
  | 5 => '5' | 6 => '6' | 7 => '7' | 8 => '8' | 9 => '9'
  | _ => '?'

/-- ASCII decimal digit test (the digits Python int() accepts for the
position strings this program sees). -/
def isDigitChr (c : Char) : Bool :=
  48 ≤ c.toNat && c.toNat ≤ 57

/-- Numeric value of a digit character. -/
def digitVal (c : Char) : Nat :=
  c.toNat - 48

/-- Decimal rendering of a natural number, most significant digit first,
with explicit fuel (the fuel argument only bounds the recursion depth;
it is always called with fuel above the value). -/
def natCharsGo : Nat → Nat → List Char
  | 0, _ => []
  | fuel + 1, n =>
    if n < 10 then [digitChr n]
    else natCharsGo fuel (n / 10) ++ [digitChr (n % 10)]

/-- Decimal character rendering of a natural number. -/
def natChars (n : Nat) : List Char :=
  natCharsGo (n + 1) n

/-- Decimal string rendering of a natural number, as a Python f-string
renders a nonnegative int. -/
def natStr (n : Nat) : String :=
  ⟨natChars n⟩

/-- Digit-run accumulator of Python int(): the value of a nonempty
all-digit character run, or none. -/
def digitsVal (l : List Char) : Option Nat :=
  if !l.isEmpty && l.all isDigitChr then
    some (l.foldl (fun a c => a * 10 + digitVal c) 0)
  else none

/-- Python int(s) on a decimal string: surrounding whitespace is stripped,
one optional sign, then a nonempty digit run.  (Underscore digit grouping
and non-ASCII digits never occur in this program's position strings and
are not modelled.)  The character-list core: -/
def pyIntList : List Char → Option Int
  | [] => none
  | c :: rest =>
    if c = '-' then (digitsVal rest).map fun n => -(n : Int)
    else if c = '+' then (digitsVal rest).map fun n => (n : Int)
    else (digitsVal (c :: rest)).map fun n => (n : Int)

def pyInt (s : String) : Option Int :=
  pyIntList (pyStrip s).data

/-! ## Cells, Python dicts -/

/-- A spreadsheet cell value as openpyxl hands it to the handlers:
empty is Python None; text is a str cell; other covers every non-None,
non-str value (number, datetime, ...) carrying its Python str() rendering
and its Python truthiness. -/
inductive CellValue where
  | empty
  | text (s : String)
  | other (s : String) (truthy : Bool)
deriving Repr, DecidableEq

/-- Python truthiness of a cell value (None and the empty string are
falsy). -/
def CellValue.pyTruthy : CellValue → Bool
  | .empty => false
  | .text s => s != ""
  | .other _ b => b

/-- Python str(v) of a cell value (str(None) is the string "None"). -/
def CellValue.pyStr : CellValue → String
  | .empty => "None"
  | .text s => s
  | .other s _ => s

/-- Python str(v or ''): a falsy value renders as the empty string. -/
def CellValue.strOrEmpty (v : CellValue) : String :=
  if v.pyTruthy then v.pyStr else ""

/-- Python dict assignment d[k] = v: replaces the value in place when the
key is present, otherwise appends the binding. -/
def pyDictInsert (d : List (String × α)) (k : String) (v : α) : List (String × α) :=
  if d.any (fun p => p.1 == k) then
    d.map fun p => if p.1 == k then (k, v) else p
  else d ++ [(k, v)]

/-- Python d.get(k, dflt). -/
def pyDictGet (d : List (String × α)) (k : String) (dflt : α) : α :=
  match d.find? (fun p => p.1 == k) with
  | some p => p.2
  | none => dflt

/-! ## Workbook state -/

/-- The 'map' grid sheet: the openpyxl used extent plus the 1-indexed cell
contents (row first, column second, as ws.cell takes them). -/
structure MapSheet where
  maxRow : Nat
  maxCol : Nat
  cell : Nat → Nat → CellValue

/-- openpyxl ws.cell(row, column, value) with a string value: coordinates
below 1 raise ValueError; otherwise the value is stored and the used
extent grows to cover the coordinate. -/
def MapSheet.writeCell (m : MapSheet) (r c : Int) (v : String) : Except String MapSheet :=
  if r < 1 || c < 1 then .error "Row or column values must be at least 1"
  else .ok
    { maxRow := max m.maxRow r.toNat
      maxCol := max m.maxCol c.toNat
      cell := fun r' c' =>
        if r' = r.toNat && c' = c.toNat then .text v else m.cell r' c' }

/-- The workbook warehouse_data.xlsx: the six sheets the handlers touch.
Row-oriented sheets are row lists whose first element is the header row;
openpyxl pads every row of a sheet to the sheet's max_column. -/
structure Workbook where
  /-- MAP_SHEET_NAME 'map'. -/
  mapSheet : MapSheet
  /-- OPTIONS_SHEET_NAME 'rowdown'. -/
  rowdownRows : List (List CellValue)
  /-- DATA_SHEET_NAME 'test': the intake ledger. -/
  ledgerRows : List (List CellValue)
  /-- CUSTOMER_SHEET_NAME 'sale_sheet_data'. -/
  customerRows : List (List CellValue)
  /-- GOODS_SHEET_NAME 'goods_sheet'. -/
  goodsRows : List (List CellValue)
  /-- Whether SALE_ROWDOWN_NAME 'rowdown_order' is in wb.sheetnames. -/
  saleRowdownPresent : Bool
  /-- SALE_ROWDOWN_NAME 'rowdown_order'. -/
  saleRowdownRows : List (List CellValue)

/-! ## Record codec (submit_data lines 373-378, get_data lines 311-319) -/

/-- submit_data lines 373-378: the cell text written to the map sheet, the
four fields joined with line breaks in the fixed order bin label, material,
date, vendor.  No escaping of embedded line breaks. -/
def encodeCell (binLabel materialInput date vendorName : String) : String :=
  binLabel ++ "\n" ++ materialInput ++ "\n" ++ date ++ "\n" ++ vendorName

/-- The decoded content of one grid cell. -/
structure BinRecord where
  binName : String
  item : String
  date : String
  vendor : String
deriving Repr, DecidableEq

/-- get_data lines 311-319, the field extraction: a truthy str cell is
split on line breaks and read positionally with missing segments empty;
any other cell gives the all-empty record. -/
def decodeCell (v : CellValue) : BinRecord :=
  match v with
  | .text s =>
    if s != "" then
      let lines := pySplit '\n' s
      { binName := lines.getD 0 "", item := lines.getD 1 ""
        date := lines.getD 2 "", vendor := lines.getD 3 "" }
    else { binName := "", item := "", date := "", vendor := "" }
  | _ => { binName := "", item := "", date := "", vendor := "" }

/-! ## Grid read (get_data lines 304-326) -/

/-- get_data line 309: the position name of a cell, column first. -/
def posName (c r : Nat) : String :=
  natStr c ++ "-" ++ natStr r

/-- get_data lines 308-326: one binMapData entry, the Python dict literal
as an ordered key/value list.  A truthy str cell gets the six keys of
lines 313-320; every other cell gets only the three keys of lines 322-326. -/
def binEntry (c r : Nat) (v : CellValue) : List (String × String) :=
  match v with
  | .text s =>
    if s != "" then
      let b := decodeCell (.text s)
      [("positionName", posName c r), ("binName", b.binName), ("item", b.item),
       ("date", b.date), ("vendor", b.vendor), ("binValue", s)]
    else [("positionName", posName c r), ("binName", ""), ("binValue", "")]
  | _ => [("positionName", posName c r), ("binName", ""), ("binValue", "")]

/-- get_data lines 305-326: one entry per (row, col) of
the rectangle rows 1..max_row by columns 1..max_column, rows outer. -/
def binMapData (m : MapSheet) : List (List (String × String)) :=
  (List.range m.maxRow).flatMap fun ri =>
    (List.range m.maxCol).map fun ci => binEntry (ci + 1) (ri + 1) (m.cell (ri + 1) (ci + 1))

/-! ## Lookup extraction (get_rowdown_data lines 215-268, get_data lines 285-302) -/

/-- The per-column option extraction loop shared verbatim by
get_rowdown_data lines 252-260 and get_data lines 296-301: cells present
and non-None are rendered with str and stripped; empty values and values
already in the seen-set are skipped; first occurrences are kept in order. -/
def extractColumn (colIndex : Nat) : List (List CellValue) → List String → List String
  | [], _ => []
  | row :: rest, seen =>
    match row.get? colIndex with
    | some v =>
      if v = CellValue.empty then extractColumn colIndex rest seen
      else
        let value := pyStrip v.pyStr
        if value != "" && !(seen.contains value) then
          value :: extractColumn colIndex rest (value :: seen)
        else extractColumn colIndex rest seen
    | none => extractColumn colIndex rest seen

/-- get_data lines 285-302: the unkeyed dropdown extraction from the
'rowdown' sheet; every truthy header yields a column, keyed by the header
itself (its str rendering in the JSON response). -/
def dropdownOptions (rows : List (List CellValue)) : List (String × List String) :=
  match rows with
  | [] => []
  | header :: dataRows =>
    header.enum.foldl
      (fun d p =>
        if p.2.pyTruthy then pyDictInsert d p.2.pyStr (extractColumn p.1 dataRows [])
        else d)
      []

/-- get_rowdown_data lines 217-223: the fixed header-to-key vocabulary. -/
def HEADER_TO_JSON_KEY : List (String × String) :=
  [("計價單位", "pricingUnits"), ("銷售方式", "salesMethods"),
   ("製單人員", "creatorNames"), ("送貨員", "deliveryPeople"), ("車號", "carNumbers")]

/-- get_rowdown_data lines 215-268: the keyed dropdown extraction from the
'rowdown_order' sheet; only str headers present in the vocabulary yield a
column, keyed by the mapped JSON key. -/
def get_rowdown_data (wb : Workbook) : Except String (List (String × List String)) :=
  if !wb.saleRowdownPresent then .error "sheet not found"
  else .ok <|
    match wb.saleRowdownRows with
    | [] => []
    | header :: dataRows =>
      header.enum.foldl
        (fun d p =>
          match p.2 with
          | .text s =>
            match HEADER_TO_JSON_KEY.lookup s with
            | some k => pyDictInsert d k (extractColumn p.1 dataRows [])
            | none => d
          | _ => d)
        []

/-- get_data lines 280-331: the dropdown options and the dense bin map. -/
def get_data (wb : Workbook) : List (String × List String) × List (List (String × String)) :=
  (dropdownOptions wb.rowdownRows, binMapData wb.mapSheet)

/-! ## Intake submission (submit_data lines 340-386) -/

/-- The intake form fields submit_data reads with form_data.get (none when
the field is absent from the POST body).  The fields carry the spec's names
for the form keys, in the order lines 351-360 read them: date = 日期,
material = 輸入原物料, vendor = 廠商名稱, dryness = 乾燥度, grade = 等級,
binLabel = 料桶, totalWeight = 總重, capacity = 容量, estRate = 初估碾米率,
note = 備註, plus positionName. -/
structure IntakeForm where
  date : Option String
  material : Option String
  vendor : Option String
  dryness : Option String
  grade : Option String
  binLabel : Option String
  totalWeight : Option String
  capacity : Option String
  estRate : Option String
  note : Option String
  positionName : Option String

/-- An absent form value appended into a sheet row is None, an empty cell. -/
def optCell : Option String → CellValue
  | none => .empty
  | some s => .text s

/-- Python f-string interpolation of a form value: None renders as "None". -/
def optStr : Option String → String
  | none => "None"
  | some s => s

/-- submit_data lines 346-361: the ledger row appended to the 'test' sheet;
ts stands for the datetime.now() timestamp cell. -/
def newLedgerRow (ts : String) (f : IntakeForm) : List CellValue :=
  [.other ts true, optCell f.date, optCell f.material, optCell f.vendor,
   optCell f.dryness, optCell f.grade, optCell f.binLabel, optCell f.totalWeight,
   optCell f.capacity, optCell f.estRate, optCell f.note]

/-- submit_data line 371: col, row = map(int, position.split('-')),
unpacked into two names.  It succeeds exactly when the split has two parts
and both parse as Python ints; with any other part count or an unparsable
part the unpacking or the int conversion raises ValueError (the raise
order differs from the check order here, but the success/failure outcome
and the parsed pair are the same). -/
def parsePosition (s : String) : Option (Int × Int) :=
  match pySplit '-' s with
  | [a, b] =>
    match pyInt a, pyInt b with
    | some ca, some rb => some (ca, rb)
    | _, _ => none
  | _ => none

/-- submit_data lines 342-381 up to wb.save: the in-memory mutation.  The
ledger append of line 362 happens before the position checks; error models
an exception reaching the handler's except-block before wb.save runs.
The header_map warning prints of the source have no state effect and are
not modelled. -/
def submit_data (wb : Workbook) (ts : String) (f : IntakeForm) : Except String Workbook :=
  let wb1 := { wb with ledgerRows := wb.ledgerRows ++ [newLedgerRow ts f] }
  match f.positionName with
  | none => .error "missing positionName"
  | some p =>
    if p == "" then .error "missing positionName"
    else
      match parsePosition p with
      | none => .error "invalid position"
      | some (c, r) =>
        let v := encodeCell (optStr f.binLabel) (optStr f.material)
                   (optStr f.date) (optStr f.vendor)
        (wb1.mapSheet.writeCell r c v).map fun ms => { wb1 with mapSheet := ms }

/-- The on-disk workbook after one /api/submit request: wb.save(EXCEL_FILE)
runs only on the success path of submit_data, so any exception raised
before it leaves the persisted file exactly as it was. -/
def submitPersist (file : Workbook) (ts : String) (f : IntakeForm) : Workbook :=
  match submit_data file ts f with
  | .ok wb => wb
  | .error _ => file

/-! ## Customer search (get_customers lines 85-168) -/

/-- One formatted customer of get_customers lines 156-161. -/
structure Customer where
  id : String
  name : String
  phone : String
  address : String
deriving Repr, DecidableEq

/-- get_customers lines 125-128: the per-row customer_info dict, keyed by
the header texts, with a short row padded by empty strings. -/
def customerInfo (headers : List String) (rowData : List String) : List (String × String) :=
  headers.enum.foldl (fun d p => pyDictInsert d p.2 (rowData.getD p.1 "")) []

/-- get_customers lines 130-152: the sequential is_match computation (each
later field is tried only while is_match is still false, which folds into
a disjunction). -/
def customerMatches (info : List (String × String)) (idQ nameQ phoneQ addrQ : String) : Bool :=
  let idVal := pyLower (pyDictGet info "客戶編號" "")
  let nameVal := pyLower (pyDictGet info "客戶名稱" "")
  let phoneVal := pyLower (pyDictGet info "客戶電話" "")
  let addrVal := pyLower (pyDictGet info "送貨地址" "")
  (idQ != "" && idVal != "" && pyStartswith idVal idQ)
    || (nameQ != "" && nameVal != "" && pyStartswith nameVal nameQ)
    || (phoneQ != "" && phoneVal != "" && pyStartswith phoneVal phoneQ)
    || (addrQ != "" && addrVal != "" && pyStartswith addrVal addrQ)

/-- get_customers lines 156-161: header-keyed dict to formatted fields. -/
def formatCustomer (info : List (String × String)) : Customer :=
  { id := pyDictGet info "客戶編號" "", name := pyDictGet info "客戶名稱" ""
    phone := pyDictGet info "客戶電話" "", address := pyDictGet info "送貨地址" "" }

/-- get_customers lines 121-123: the candidate entities, one per data row:
headers from row 1 via str(cell.value) (unstripped), row cells via
str(cell.value or '').strip(). -/
def customerCandidates (wb : Workbook) : List (List (String × String)) :=
  let headers := (wb.customerRows.headD []).map CellValue.pyStr
  (wb.customerRows.drop 1).map fun row =>
    customerInfo headers (row.map fun cv => pyStrip cv.strOrEmpty)

/-- get_customers lines 85-164: strip and lower the four queries; when all
four are empty return the empty list at once; otherwise scan, filter, and
format.  (The header_map block of lines 110-118 only prints warnings and
is dead to the result.) -/
def get_customers (wb : Workbook) (idQraw nameQraw phoneQraw addrQraw : String) : List Customer :=
  let idQ := pyLower (pyStrip idQraw)
  let nameQ := pyLower (pyStrip nameQraw)
  let phoneQ := pyLower (pyStrip phoneQraw)
  let addrQ := pyLower (pyStrip addrQraw)
  if idQ == "" && nameQ == "" && phoneQ == "" && addrQ == "" then []
  else
    ((customerCandidates wb).filter fun info =>
      customerMatches info idQ nameQ phoneQ addrQ).map formatCustomer

/-! ## Goods listing (get_goods_data lines 173-209) -/

/-- One formatted goods row of get_goods_data lines 198-202. -/
structure GoodsItem where
  name : String
  spec : String
  stock : String
deriving Repr, DecidableEq

/-- get_goods_data line 182: headers via str(cell.value).strip(), keeping
only the truthy header cells — falsy headers are dropped, compacting the
index space. -/
def goodsHeaders (headerRow : List CellValue) : List String :=
  headerRow.filterMap fun cv =>
    if cv.pyTruthy then some (pyStrip cv.pyStr) else none

/-- get_goods_data lines 188-189: the row dict comprehension indexing the
filtered headers by the raw cell position; headers[i] raises IndexError
when the row is longer than the filtered header list. -/
def goodsRowDict (headers : List String) :
    List CellValue → Nat → List (String × String) → Except String (List (String × String))
  | [], _, acc => .ok acc
  | cv :: rest, i, acc =>
    match headers.get? i with
    | none => .error "list index out of range"
    | some h =>
      goodsRowDict headers rest (i + 1)
        (pyDictInsert acc h (if cv.pyTruthy then pyStrip cv.pyStr else ""))

/-- get_goods_data lines 198-202. -/
def formatGoods (d : List (String × String)) : GoodsItem :=
  { name := pyDictGet d "品名" "", spec := pyDictGet d "規格" ""
    stock := pyDictGet d "庫存" "" }

/-- get_goods_data lines 173-205: one formatted item per data row; a row
dict failure (IndexError) aborts the whole request into the except-block. -/
def get_goods_data (wb : Workbook) : Except String (List GoodsItem) :=
  let headers := goodsHeaders (wb.goodsRows.headD [])
  (wb.goodsRows.drop 1).mapM fun row => (goodsRowDict headers row 0 []).map formatGoods

/-! ## Spec-side definitions, for the refinement-style claims -/

/-- The trimmed str renderings of the present, non-None cells of one
column, in row order — the value stream the spec's dedup law quantifies
over. -/
def columnStrings (colIndex : Nat) : List (List CellValue) → List String
  | [] => []
  | row :: rest =>
    match row.get? colIndex with
    | some v =>
      if v = CellValue.empty then columnStrings colIndex rest
      else
        let value := pyStrip v.pyStr
        if value != "" then value :: columnStrings colIndex rest
        else columnStrings colIndex rest
    | none => columnStrings colIndex rest

/-- Written from the spec's words for lookup extraction: keep the first
occurrence of each value in order, suppressing a value already in the
seen-set. -/
def specDedup : List String → List String → List String
  | [], _ => []
  | v :: t, seen =>
    if v ∈ seen then specDedup t seen else v :: specDedup t (v :: seen)

/-- Written from the spec's words for the prefix filter: an entity matches
when at least one supplied non-empty query is a case-insensitive prefix of
the corresponding trimmed, lower-cased field — a plain disjunction over the
four fields. -/
def specCustomerMatches (info : List (String × String)) (idQ nameQ phoneQ addrQ : String) : Bool :=
  (idQ != "" && pyStartswith (pyLower (pyDictGet info "客戶編號" "")) idQ)
    || (nameQ != "" && pyStartswith (pyLower (pyDictGet info "客戶名稱" "")) nameQ)
    || (phoneQ != "" && pyStartswith (pyLower (pyDictGet info "客戶電話" "")) phoneQ)
    || (addrQ != "" && pyStartswith (pyLower (pyDictGet info "送貨地址" "")) addrQ)

/-- A row padded with empty strings up to a header count (the spec's
"missing cells are treated as empty strings"). -/
def padEmpty (l : List String) (n : Nat) : List String :=
  l ++ List.replicate (n - l.length) ""

/-! ## Concrete fixtures used by witnesses and counterexamples -/

/-- A 6-row, 1-column options table carrying the spec's example column
values b, a, b, empty, a, c under one recognized header. -/
def exampleColumnRows : List (List CellValue) :=
  [[.text "b"], [.text "a"], [.text "b"], [.text ""], [.text "a"], [.text "c"]]

/-- A small concrete workbook: a 1 by 1 empty map grid, the example options
column, one customer row, one goods row. -/
def exampleWB : Workbook where
  mapSheet := ⟨1, 1, fun _ _ => .empty⟩
  rowdownRows := [.text "計價單位"] :: exampleColumnRows
  ledgerRows := []
  customerRows :=
    [[.text "客戶編號", .text "客戶名稱", .text "客戶電話", .text "送貨地址"],
     [.text "C100", .text "Acme Corp", .text "555", .text "1 Main St"]]
  goodsRows := [[.text "品名", .text "規格", .text "庫存"], [.text "米", .text "x", .text "3"]]
  saleRowdownPresent := true
  saleRowdownRows := [.text "計價單位"] :: exampleColumnRows

/-- The example workbook with a goods sheet whose header row has a gap (an
empty header cell) while a data row still spans the full width — exactly
what openpyxl hands over when the sheet's max_column exceeds the number of
truthy header cells. -/
def gapGoodsWB : Workbook :=
  { exampleWB with goodsRows := [[.text "品名", .empty], [.text "米", .text "x"]] }

/-- A concrete filled intake form targeting position 1-1. -/
def sampleForm : IntakeForm :=
  ⟨some "2024-01-02", some "rice", some "acme", none, none,
   some "B7", none, none, none, none, some "1-1"⟩

/-! ## String-level helper lemmas -/

theorem mk_data (s : String) : String.mk s.data = s := rfl

theorem pySplitList_ne_nil (sep : Char) (l : List Char) : pySplitList sep l ≠ [] := by
  induction l with
  | nil => simp [pySplitList]
  | cons c rest ih =>
    simp only [pySplitList]
    rcases hr : pySplitList sep rest with _ | ⟨hh, tt⟩
    · exact absurd hr ih
    · by_cases hcs : c = sep <;> simp [hcs]

theorem pySplitList_no_sep (sep : Char) (l : List Char) (h : sep ∉ l) :
    pySplitList sep l = [l] := by
  induction l with
  | nil => rfl
  | cons c rest ih =>
    have hc : c ≠ sep := by rintro rfl; exact h (List.mem_cons_self _ _)
    have hr : sep ∉ rest := fun hm => h (List.mem_cons_of_mem _ hm)
    simp [pySplitList, ih hr, hc]

theorem pySplitList_append (sep : Char) (l rest : List Char) (h : sep ∉ l) :
    pySplitList sep (l ++ sep :: rest) = l :: pySplitList sep rest := by
  induction l with
  | nil =>
    simp only [List.nil_append, pySplitList]
    cases hr : pySplitList sep rest with
    | nil => exact absurd hr (pySplitList_ne_nil sep rest)
    | cons hh tt => simp
  | cons c l' ih =>
    have hc : c ≠ sep := by rintro rfl; exact h (List.mem_cons_self _ _)
    have hl' : sep ∉ l' := fun hm => h (List.mem_cons_of_mem _ hm)
    simp only [List.cons_append, pySplitList, List.append_eq]
    rw [ih hl']
    simp [hc]

/-- Record-codec round trip at the level of the embedded functions. -/
theorem decode_encode (a b c d : String)
    (ha : '\n' ∉ a.data) (hb : '\n' ∉ b.data) (hc : '\n' ∉ c.data) (hd : '\n' ∉ d.data) :
    decodeCell (.text (encodeCell a b c d)) = ⟨a, b, c, d⟩ := by
  have hdata : (encodeCell a b c d).data
      = a.data ++ '\n' :: (b.data ++ '\n' :: (c.data ++ '\n' :: d.data)) := by
    simp [encodeCell, String.data_append]
  have hne : encodeCell a b c d ≠ "" := by
    intro h
    have := congrArg String.data h
    rw [hdata] at this
    simp at this
  have hsplit : pySplit '\n' (encodeCell a b c d) = [a, b, c, d] := by
    unfold pySplit
    rw [hdata, pySplitList_append _ _ _ ha, pySplitList_append _ _ _ hb,
      pySplitList_append _ _ _ hc, pySplitList_no_sep _ _ hd]
    simp [mk_data]
  simp only [decodeCell, bne_iff_ne, ne_eq, hne, not_false_eq_true, if_true, hsplit]
  rfl

/-! ## Decimal rendering and position parsing lemmas -/

theorem digitChr_isDigit (d : Nat) (h : d < 10) : isDigitChr (digitChr d) = true := by
  interval_cases d <;> decide

theorem digitVal_digitChr (d : Nat) (h : d < 10) : digitVal (digitChr d) = d := by
  interval_cases d <;> decide

theorem natCharsGo_isDigit (fuel : Nat) :
    ∀ n, n < fuel → ∀ c ∈ natCharsGo fuel n, isDigitChr c = true := by
  induction fuel with
  | zero => omega
  | succ f ih =>
    intro n hn c hc
    simp only [natCharsGo] at hc
    split at hc
    · simp only [List.mem_singleton] at hc
      exact hc ▸ digitChr_isDigit n (by omega)
    · rcases List.mem_append.1 hc with hc1 | hc2
      · have hdiv : n / 10 < n := Nat.div_lt_self (by omega) (by omega)
        exact ih (n / 10) (by omega) c hc1
      · simp only [List.mem_singleton] at hc2
        exact hc2 ▸ digitChr_isDigit (n % 10) (Nat.mod_lt _ (by omega))

theorem natCharsGo_val (fuel : Nat) :
    ∀ n, n < fuel → (natCharsGo fuel n).foldl (fun a c => a * 10 + digitVal c) 0 = n := by
  induction fuel with
  | zero => omega
  | succ f ih =>
    intro n hn
    simp only [natCharsGo]
    split
    · simp [digitVal_digitChr n (by omega)]
    · rw [List.foldl_append]
      have hdiv : n / 10 < n := Nat.div_lt_self (by omega) (by omega)
      rw [ih (n / 10) (by omega)]
      simp [digitVal_digitChr (n % 10) (Nat.mod_lt _ (by omega))]
      omega

theorem natCharsGo_ne_nil (fuel n : Nat) (h : n < fuel) : natCharsGo fuel n ≠ [] := by
  cases fuel with
  | zero => omega
  | succ f => simp only [natCharsGo]; split <;> simp

theorem natChars_isDigit (n : Nat) : ∀ c ∈ natChars n, isDigitChr c = true :=
  natCharsGo_isDigit (n + 1) n (by omega)

theorem natChars_val (n : Nat) :
    (natChars n).foldl (fun a c => a * 10 + digitVal c) 0 = n :=
  natCharsGo_val (n + 1) n (by omega)

theorem natChars_ne_nil (n : Nat) : natChars n ≠ [] :=
  natCharsGo_ne_nil (n + 1) n (by omega)

theorem natChars_inj {m n : Nat} (h : natChars m = natChars n) : m = n := by
  have hm := natChars_val m
  rw [h, natChars_val n] at hm
  omega

theorem isDigitChr_not_space (c : Char) (h : isDigitChr c = true) : isPySpace c = false := by
  cases hs : isPySpace c
  · rfl
  · exfalso
    simp only [isPySpace, Bool.or_eq_true, decide_eq_true_eq] at hs
    rcases hs with ((((rfl | rfl) | rfl) | rfl) | rfl) | rfl <;> exact absurd h (by decide)

theorem isDigitChr_ne (c : Char) (h : isDigitChr c = true) :
    c ≠ '-' ∧ c ≠ '+' ∧ c ≠ '\n' := by
  refine ⟨?_, ?_, ?_⟩ <;> rintro rfl <;> exact absurd h (by decide)

theorem dropWhile_eq_self_of (p : Char → Bool) (l : List Char)
    (h : ∀ c ∈ l, p c = false) : l.dropWhile p = l := by
  cases l with
  | nil => rfl
  | cons c rest => simp [List.dropWhile_cons, h c (List.mem_cons_self _ _)]

theorem pyStrip_data (s : String) (h : ∀ c ∈ s.data, isPySpace c = false) :
    (pyStrip s).data = s.data := by
  unfold pyStrip
  rw [dropWhile_eq_self_of _ _ h, dropWhile_eq_self_of, List.reverse_reverse]
  intro c hc
  exact h c (List.mem_reverse.1 hc)

theorem pyInt_digits (l : List Char) (hne : l ≠ []) (hd : ∀ c ∈ l, isDigitChr c = true) :
    pyInt ⟨l⟩ = some ((l.foldl (fun a c => a * 10 + digitVal c) 0 : Nat) : Int) := by
  unfold pyInt
  rw [pyStrip_data ⟨l⟩ (fun c hc => isDigitChr_not_space c (hd c hc))]
  cases l with
  | nil => exact absurd rfl hne
  | cons c rest =>
    obtain ⟨h1, h2, _⟩ := isDigitChr_ne c (hd c (List.mem_cons_self _ _))
    show pyIntList (c :: rest) = _
    simp only [pyIntList]
    rw [if_neg h1, if_neg h2]
    unfold digitsVal
    rw [if_pos]
    · rfl
    · simp only [List.isEmpty_cons, Bool.not_false, Bool.true_and]
      exact List.all_eq_true.2 hd

theorem pyInt_natStr (n : Nat) : pyInt (natStr n) = some (n : Int) := by
  unfold natStr
  rw [pyInt_digits (natChars n) (natChars_ne_nil n) (natChars_isDigit n), natChars_val]

theorem no_sep_append_inj (sep : Char) :
    ∀ l1 l2 t1 t2 : List Char, sep ∉ l1 → sep ∉ l2 →
      l1 ++ sep :: t1 = l2 ++ sep :: t2 → l1 = l2 ∧ t1 = t2 := by
  intro l1
  induction l1 with
  | nil =>
    intro l2 t1 t2 _ h2 he
    cases l2 with
    | nil => simpa using he
    | cons c2 l2' =>
      simp only [List.nil_append, List.cons_append, List.cons.injEq] at he
      exact absurd he.1.symm (fun hcs => h2 (hcs ▸ List.mem_cons_self _ _))
  | cons c l1' ih =>
    intro l2 t1 t2 h1 h2 he
    cases l2 with
    | nil =>
      simp only [List.cons_append, List.nil_append, List.cons.injEq] at he
      exact absurd he.1 (fun hcs => h1 (hcs ▸ List.mem_cons_self _ _))
    | cons c2 l2' =>
      simp only [List.cons_append, List.cons.injEq] at he
      obtain ⟨heq, hts⟩ := ih l2' t1 t2
        (fun hm => h1 (List.mem_cons_of_mem _ hm))
        (fun hm => h2 (List.mem_cons_of_mem _ hm)) he.2
      exact ⟨by rw [he.1, heq], hts⟩

theorem sep_not_mem_natChars (n : Nat) : '-' ∉ natChars n :=
  fun hm => (isDigitChr_ne '-' (natChars_isDigit n '-' hm)).1 rfl

theorem posName_data (c r : Nat) :
    (posName c r).data = natChars c ++ '-' :: natChars r := by
  simp [posName, natStr, String.data_append]

theorem posName_inj {c r c' r' : Nat} (h : posName c r = posName c' r') :
    c = c' ∧ r = r' := by
  have hd := congrArg String.data h
  rw [posName_data, posName_data] at hd
  obtain ⟨h1, h2⟩ := no_sep_append_inj '-' _ _ _ _
    (sep_not_mem_natChars c) (sep_not_mem_natChars c') hd
  exact ⟨natChars_inj h1, natChars_inj h2⟩

theorem parsePosition_posName (c r : Nat) :
    parsePosition (posName c r) = some ((c : Int), (r : Int)) := by
  unfold parsePosition pySplit
  rw [posName_data,
    pySplitList_append '-' _ _ (sep_not_mem_natChars c),
    pySplitList_no_sep '-' _ (sep_not_mem_natChars r)]
  show (match pyInt (natStr c), pyInt (natStr r) with
    | some ca, some rb => some (ca, rb)
    | _, _ => none) = some ((c : Int), (r : Int))
  rw [pyInt_natStr, pyInt_natStr]

/-! ## Claim theorems -/

/-- C1: Record Codec round-trip — for all strings a, b, c, d containing no
line break, decoding the cell produced by encode(a,b,c,d) (the four fields
joined with a line break in the fixed order binName, item, date, vendor)
yields exactly the BinRecord with binName=a, item=b, date=c, vendor=d. -/
theorem claim_C1 (a b c d : String)
    (ha : '\n' ∉ a.data) (hb : '\n' ∉ b.data) (hc : '\n' ∉ c.data) (hd : '\n' ∉ d.data) :
    decodeCell (.text (encodeCell a b c d))
      = { binName := a, item := b, date := c, vendor := d } :=
  decode_encode a b c d ha hb hc hd

theorem claim_C1_witness :
    ('\n' ∉ "B7".data ∧ '\n' ∉ "rice".data ∧ '\n' ∉ "2024-01-02".data ∧ '\n' ∉ "acme".data)
    ∧ decodeCell (.text (encodeCell "B7" "rice" "2024-01-02" "acme"))
        = { binName := "B7", item := "rice", date := "2024-01-02", vendor := "acme" } :=
  ⟨⟨by decide, by decide, by decide, by decide⟩,
    claim_C1 "B7" "rice" "2024-01-02" "acme" (by decide) (by decide) (by decide) (by decide)⟩

theorem except_map_ok {ε α β : Type} (g : α → β) (x : Except ε α) (b : β)
    (h : x.map g = .ok b) : ∃ a, x = .ok a ∧ b = g a := by
  cases x with
  | error e => simp [Except.map] at h
  | ok a => simp [Except.map] at h; exact ⟨a, rfl, h.symm⟩

/-- On success, submit_data leaves every sheet but the map grid and the
ledger untouched, and the ledger gains exactly the new row at the end. -/
theorem submit_data_ok_shape (wb : Workbook) (ts : String) (f : IntakeForm)
    (wb' : Workbook) (h : submit_data wb ts f = .ok wb') :
    wb'.ledgerRows = wb.ledgerRows ++ [newLedgerRow ts f]
      ∧ wb'.rowdownRows = wb.rowdownRows
      ∧ wb'.customerRows = wb.customerRows
      ∧ wb'.goodsRows = wb.goodsRows := by
  unfold submit_data at h
  split at h
  · exact Except.noConfusion h
  · split at h
    · exact Except.noConfusion h
    · split at h
      · exact Except.noConfusion h
      · obtain ⟨ms, _, hb⟩ := except_map_ok _ _ _ h
        subst hb
        exact ⟨rfl, rfl, rfl, rfl⟩

/-- C2: Position parsing — the position string 3-5 targets column 3, row 5
(the write lands at row 5, column 3, leaving every other cell unchanged),
while each of 0-1, -1-2 and abc makes submit_data fail before saving (the
first parses but is rejected by the at-least-1 coordinate check, the other
two do not parse as two ints separated by a dash). -/
theorem claim_C2 :
    (∀ (wb : Workbook) (ts : String) (f : IntakeForm),
      ∃ wb', submit_data wb ts { f with positionName := some "3-5" } = .ok wb'
        ∧ wb'.mapSheet.cell 5 3
            = .text (encodeCell (optStr f.binLabel) (optStr f.material)
                (optStr f.date) (optStr f.vendor))
        ∧ ∀ r c : Nat, ¬(r = 5 ∧ c = 3) → wb'.mapSheet.cell r c = wb.mapSheet.cell r c)
    ∧ (∀ (wb : Workbook) (ts : String) (f : IntakeForm),
        ∃ e, submit_data wb ts { f with positionName := some "0-1" } = .error e)
    ∧ (∀ (wb : Workbook) (ts : String) (f : IntakeForm),
        ∃ e, submit_data wb ts { f with positionName := some "-1-2" } = .error e)
    ∧ (∀ (wb : Workbook) (ts : String) (f : IntakeForm),
        ∃ e, submit_data wb ts { f with positionName := some "abc" } = .error e) := by
  refine ⟨?_, ?_, ?_, ?_⟩
  · intro wb ts f
    refine ⟨_, rfl, rfl, ?_⟩
    intro r c h
    have d3 : digitVal '3' = 3 := by decide
    have d5 : digitVal '5' = 5 := by decide
    by_cases hr : r = 5
    · by_cases hc : c = 3
      · exact absurd ⟨hr, hc⟩ h
      · simp [submit_data, MapSheet.writeCell, parsePosition, hr, hc, d3, d5]
    · simp [submit_data, MapSheet.writeCell, parsePosition, hr, d3, d5]
  · intro wb ts f; exact ⟨_, rfl⟩
  · intro wb ts f; exact ⟨_, rfl⟩
  · intro wb ts f; exact ⟨_, rfl⟩

/-- C8: Ledger append-only — every successful submit_data appends exactly
one row at the end of the transaction table, leaving existing rows
untouched, and two successive successful calls with identical form fields
leave two rows appended (duplicates kept). -/
theorem claim_C8 :
    (∀ (wb : Workbook) (ts : String) (f : IntakeForm) (wb' : Workbook),
      submit_data wb ts f = .ok wb' →
        wb'.ledgerRows = wb.ledgerRows ++ [newLedgerRow ts f])
    ∧ (∀ (wb : Workbook) (ts1 ts2 : String) (f : IntakeForm) (wb1 wb2 : Workbook),
        submit_data wb ts1 f = .ok wb1 → submit_data wb1 ts2 f = .ok wb2 →
          wb2.ledgerRows = wb.ledgerRows ++ [newLedgerRow ts1 f, newLedgerRow ts2 f]) := by
  constructor
  · intro wb ts f wb' h
    exact (submit_data_ok_shape wb ts f wb' h).1
  · intro wb ts1 ts2 f wb1 wb2 h1 h2
    rw [(submit_data_ok_shape wb1 ts2 f wb2 h2).1, (submit_data_ok_shape wb ts1 f wb1 h1).1,
      List.append_assoc]
    rfl

theorem claim_C8_witness :
    ∃ wb1 wb2, submit_data exampleWB "t1" sampleForm = .ok wb1
      ∧ submit_data wb1 "t2" sampleForm = .ok wb2
      ∧ wb1.ledgerRows = exampleWB.ledgerRows ++ [newLedgerRow "t1" sampleForm]
      ∧ wb2.ledgerRows
          = exampleWB.ledgerRows ++ [newLedgerRow "t1" sampleForm, newLedgerRow "t2" sampleForm] :=
  ⟨_, _, rfl, rfl, claim_C8.1 exampleWB "t1" sampleForm _ rfl,
    claim_C8.2 exampleWB "t1" "t2" sampleForm _ _ rfl rfl⟩

theorem encodeCell_data (a b c d : String) :
    (encodeCell a b c d).data = a.data ++ '\n' :: (b.data ++ '\n' :: (c.data ++ '\n' :: d.data)) := by
  simp [encodeCell, String.data_append]

theorem encodeCell_ne_empty (a b c d : String) : encodeCell a b c d ≠ "" := by
  intro h
  have := congrArg String.data h
  rw [encodeCell_data] at this
  simp at this

theorem posName_ne_empty (c r : Nat) : posName c r ≠ "" := by
  intro h
  have := congrArg String.data h
  rw [posName_data] at this
  exact absurd (List.append_eq_nil.1 this).1 (natChars_ne_nil c)

/-- Shape of a binMapData entry for a truthy text cell. -/
theorem binEntry_text (c r : Nat) (s : String) (hs : s ≠ "") :
    binEntry c r (.text s)
      = [("positionName", posName c r), ("binName", (decodeCell (.text s)).binName),
         ("item", (decodeCell (.text s)).item), ("date", (decodeCell (.text s)).date),
         ("vendor", (decodeCell (.text s)).vendor), ("binValue", s)] := by
  simp [binEntry, hs]

/-- Shape of a binMapData entry for an empty, non-string, or empty-string
cell: only three keys are present. -/
theorem binEntry_sparse (c r : Nat) (v : CellValue) (hv : ∀ s, v = .text s → s = "") :
    binEntry c r v = [("positionName", posName c r), ("binName", ""), ("binValue", "")] := by
  cases v with
  | empty => rfl
  | text s => simp [binEntry, hv s rfl]
  | other s b => rfl

/-- The first key of every binMapData entry is the position name. -/
theorem pyDictGet_binEntry_pos (c r : Nat) (v : CellValue) :
    pyDictGet (binEntry c r v) "positionName" "" = posName c r := by
  cases v with
  | empty => rfl
  | text s =>
    by_cases hs : s = ""
    · rw [binEntry_sparse c r _ (fun s' h => by injection h with h'; rw [← h']; exact hs)]
      rfl
    · rw [binEntry_text c r s hs]
      rfl
  | other s b => rfl

theorem binMapData_length (m : MapSheet) :
    (binMapData m).length = m.maxRow * m.maxCol := by
  unfold binMapData
  have key : ∀ (M N : Nat) (g : Nat → Nat → List (String × String)),
      ((List.range M).flatMap fun ri => (List.range N).map fun ci => g ri ci).length
        = M * N := by
    intro M N g
    induction M with
    | zero => simp
    | succ M ih =>
      rw [List.range_succ, List.flatMap_append, List.length_append, ih]
      simp [Nat.succ_mul]
  exact key m.maxRow m.maxCol _

theorem binMapData_mem (m : MapSheet) (e : List (String × String)) (he : e ∈ binMapData m) :
    ∃ ri ci, ri < m.maxRow ∧ ci < m.maxCol
      ∧ e = binEntry (ci + 1) (ri + 1) (m.cell (ri + 1) (ci + 1)) := by
  unfold binMapData at he
  simp only [List.mem_flatMap, List.mem_map, List.mem_range] at he
  obtain ⟨ri, hri, ci, hci, heq⟩ := he
  exact ⟨ri, ci, hri, hci, heq.symm⟩

theorem binMapData_mem_of (m : MapSheet) (ri ci : Nat) (hri : ri < m.maxRow)
    (hci : ci < m.maxCol) :
    binEntry (ci + 1) (ri + 1) (m.cell (ri + 1) (ci + 1)) ∈ binMapData m := by
  unfold binMapData
  simp only [List.mem_flatMap, List.mem_map, List.mem_range]
  exact ⟨ri, hri, ci, hci, rfl⟩

/-- C3 as stated is false: an empty cell's entry does not carry the item,
date and vendor keys.  On a 1 by 1 grid holding one empty cell, the single
entry of binMapData lacks the key "item". -/
theorem claim_C3_counterexample :
    ∃ e ∈ binMapData (MapSheet.mk 1 1 fun _ _ => CellValue.empty),
      "item" ∉ e.map Prod.fst := by decide

/-- C3 amended: for a grid of used extent M rows by N columns, binMapData
has exactly M times N entries, one per cell of the full rectangle including
empty cells; an entry for a nonempty string cell carries positionName,
binName, item, date, vendor and binValue (the four middle fields decoded
from the cell); an entry for an empty, non-string or empty-string cell
carries only positionName, binName and binValue, the latter two empty —
it does not carry the item, date and vendor keys. -/
theorem claim_C3 :
    (∀ m : MapSheet, (binMapData m).length = m.maxRow * m.maxCol)
    ∧ (∀ (c r : Nat) (s : String), s ≠ "" →
        binEntry c r (.text s)
          = [("positionName", posName c r), ("binName", (decodeCell (.text s)).binName),
             ("item", (decodeCell (.text s)).item), ("date", (decodeCell (.text s)).date),
             ("vendor", (decodeCell (.text s)).vendor), ("binValue", s)])
    ∧ (∀ (c r : Nat) (v : CellValue), (∀ s, v = .text s → s = "") →
        binEntry c r v = [("positionName", posName c r), ("binName", ""), ("binValue", "")])
    ∧ (∀ m : MapSheet, ∀ e ∈ binMapData m,
        e.map Prod.fst = ["positionName", "binName", "item", "date", "vendor", "binValue"]
        ∨ e.map Prod.fst = ["positionName", "binName", "binValue"]) := by
  refine ⟨binMapData_length, binEntry_text, binEntry_sparse, ?_⟩
  intro m e he
  obtain ⟨ri, ci, _, _, rfl⟩ := binMapData_mem m e he
  rcases hv : m.cell (ri + 1) (ci + 1) with _ | s | ⟨s, b⟩
  · right
    rw [binEntry_sparse _ _ _ (fun _ h => CellValue.noConfusion h)]
    rfl
  · by_cases hs : s = ""
    · right
      rw [binEntry_sparse _ _ _ (fun s' h => by injection h with h'; rw [← h']; exact hs)]
      rfl
    · left
      rw [binEntry_text _ _ _ hs]
      rfl
  · right
    rw [binEntry_sparse _ _ _ (fun _ h => CellValue.noConfusion h)]
    rfl

theorem claim_C3_witness :
    (binMapData (MapSheet.mk 2 3 fun _ _ => CellValue.empty)).length = 2 * 3
    ∧ ("a\nb" ≠ ""
        ∧ binEntry 1 1 (.text "a\nb")
            = [("positionName", posName 1 1), ("binName", (decodeCell (.text "a\nb")).binName),
               ("item", (decodeCell (.text "a\nb")).item), ("date", (decodeCell (.text "a\nb")).date),
               ("vendor", (decodeCell (.text "a\nb")).vendor), ("binValue", "a\nb")])
    ∧ binEntry 2 3 CellValue.empty
        = [("positionName", posName 2 3), ("binName", ""), ("binValue", "")] :=
  ⟨claim_C3.1 _,
    ⟨by decide, claim_C3.2.1 1 1 "a\nb" (by decide)⟩,
    claim_C3.2.2.1 2 3 CellValue.empty (fun _ h => CellValue.noConfusion h)⟩

/-- C4: Addressing consistency — both submit_data and get_data name a cell
column-first.  For a position within the sheet extent and form fields free
of line breaks, after a submit to posName c r the workbook read back has an
entry whose positionName is posName c r, and every entry bearing that
positionName holds the submitted binName, item, date and vendor. -/
theorem claim_C4 (wb : Workbook) (ts : String) (f : IntakeForm) (c r : Nat)
    (hc1 : 1 ≤ c) (hcM : c ≤ wb.mapSheet.maxCol) (hr1 : 1 ≤ r) (hrM : r ≤ wb.mapSheet.maxRow)
    (hpos : f.positionName = some (posName c r))
    (bl mt dt vd : String)
    (hbl : f.binLabel = some bl) (hmt : f.material = some mt)
    (hdt : f.date = some dt) (hvd : f.vendor = some vd)
    (hbl' : '\n' ∉ bl.data) (hmt' : '\n' ∉ mt.data)
    (hdt' : '\n' ∉ dt.data) (hvd' : '\n' ∉ vd.data) :
    ∃ wb', submit_data wb ts f = .ok wb'
      ∧ (∃ e ∈ binMapData wb'.mapSheet, pyDictGet e "positionName" "" = posName c r)
      ∧ (∀ e ∈ binMapData wb'.mapSheet, pyDictGet e "positionName" "" = posName c r →
          pyDictGet e "binName" "" = bl ∧ pyDictGet e "item" "" = mt
          ∧ pyDictGet e "date" "" = dt ∧ pyDictGet e "vendor" "" = vd) := by
  have hne0 : ¬((posName c r == "") = true) := by
    simpa using posName_ne_empty c r
  have hcond : ¬((((r : Nat) : Int) < 1 || ((c : Nat) : Int) < 1) = true) := by
    simp only [Bool.or_eq_true, decide_eq_true_eq, not_or, not_lt]
    omega
  have hok : submit_data wb ts f
      = .ok { wb with
          ledgerRows := wb.ledgerRows ++ [newLedgerRow ts f]
          mapSheet :=
            { maxRow := max wb.mapSheet.maxRow ((r : Nat) : Int).toNat
              maxCol := max wb.mapSheet.maxCol ((c : Nat) : Int).toNat
              cell := fun r' c' =>
                if r' = ((r : Nat) : Int).toNat && c' = ((c : Nat) : Int).toNat
                then .text (encodeCell (optStr f.binLabel) (optStr f.material)
                  (optStr f.date) (optStr f.vendor))
                else wb.mapSheet.cell r' c' } } := by
    unfold submit_data
    rw [hpos]
    dsimp only
    rw [if_neg hne0, parsePosition_posName]
    dsimp only
    unfold MapSheet.writeCell
    rw [if_neg hcond]
    rfl
  rw [Int.toNat_ofNat, Int.toNat_ofNat, Nat.max_eq_left hrM, Nat.max_eq_left hcM,
    hbl, hmt, hdt, hvd] at hok
  simp only [optStr] at hok
  refine ⟨_, hok, ?_, ?_⟩
  · dsimp only
    have hmem := binMapData_mem_of
      ⟨wb.mapSheet.maxRow, wb.mapSheet.maxCol, fun r' c' =>
        if r' = r && c' = c
        then CellValue.text (encodeCell bl mt dt vd)
        else wb.mapSheet.cell r' c'⟩
      (r - 1) (c - 1) (show r - 1 < wb.mapSheet.maxRow by omega)
      (show c - 1 < wb.mapSheet.maxCol by omega)
    rw [show r - 1 + 1 = r by omega, show c - 1 + 1 = c by omega] at hmem
    exact ⟨_, hmem, pyDictGet_binEntry_pos c r _⟩
  · intro e he hpe
    dsimp only at he
    obtain ⟨ri, ci, hri, hci, rfl⟩ := binMapData_mem _ e he
    rw [pyDictGet_binEntry_pos] at hpe
    obtain ⟨hceq, hreq⟩ := posName_inj hpe
    subst hceq
    subst hreq
    dsimp only
    rw [if_pos (show (decide ((ri + 1 : Nat) = ri + 1) && decide ((ci + 1 : Nat) = ci + 1)) = true
      by simp)]
    rw [binEntry_text _ _ _ (encodeCell_ne_empty bl mt dt vd),
      decode_encode bl mt dt vd hbl' hmt' hdt' hvd']
    exact ⟨rfl, rfl, rfl, rfl⟩

theorem claim_C4_witness :
    ∃ wb', submit_data exampleWB "t" sampleForm = .ok wb'
      ∧ (∃ e ∈ binMapData wb'.mapSheet, pyDictGet e "positionName" "" = posName 1 1)
      ∧ (∀ e ∈ binMapData wb'.mapSheet, pyDictGet e "positionName" "" = posName 1 1 →
          pyDictGet e "binName" "" = "B7" ∧ pyDictGet e "item" "" = "rice"
          ∧ pyDictGet e "date" "" = "2024-01-02" ∧ pyDictGet e "vendor" "" = "acme") :=
  claim_C4 exampleWB "t" sampleForm 1 1 (by decide) (by decide) (by decide) (by decide)
    (by decide) "B7" "rice" "2024-01-02" "acme" rfl rfl rfl rfl
    (by decide) (by decide) (by decide) (by decide)

/-- C10: Write atomicity on failure — when submit_data raises before the
final wb.save (missing or malformed positionName, or any other exception
on the mutation path), the persisted file keeps its prior state: the grid
read and the ledger of a subsequent request are unchanged, and in
particular the in-memory ledger append performed before position
validation is not persisted. -/
theorem claim_C10 (file : Workbook) (ts : String) (f : IntakeForm) (e : String)
    (h : submit_data file ts f = .error e) :
    submitPersist file ts f = file
      ∧ get_data (submitPersist file ts f) = get_data file
      ∧ (submitPersist file ts f).ledgerRows = file.ledgerRows := by
  have hp : submitPersist file ts f = file := by
    unfold submitPersist
    rw [h]
  exact ⟨hp, by rw [hp], by rw [hp]⟩

theorem claim_C10_witness :
    submitPersist exampleWB "t" { sampleForm with positionName := none } = exampleWB
      ∧ get_data (submitPersist exampleWB "t" { sampleForm with positionName := none })
          = get_data exampleWB
      ∧ (submitPersist exampleWB "t" { sampleForm with positionName := none }).ledgerRows
          = exampleWB.ledgerRows :=
  claim_C10 exampleWB "t" { sampleForm with positionName := none } "missing positionName" rfl

/-! ## Lookup extraction and customer search lemmas -/

theorem extractColumn_spec (colIndex : Nat) (dataRows : List (List CellValue)) :
    ∀ seen, extractColumn colIndex dataRows seen
      = specDedup (columnStrings colIndex dataRows) seen := by
  induction dataRows with
  | nil => intro seen; rfl
  | cons row rest ih =>
    intro seen
    simp only [extractColumn, columnStrings]
    cases hg : row.get? colIndex with
    | none => exact ih seen
    | some v =>
      dsimp only
      by_cases hv : v = CellValue.empty
      · rw [if_pos hv, if_pos hv]
        exact ih seen
      · rw [if_neg hv, if_neg hv]
        by_cases hval : pyStrip v.pyStr = ""
        · rw [if_neg (by simp [hval]), if_neg (by simp [hval])]
          exact ih seen
        · by_cases hseen : pyStrip v.pyStr ∈ seen
          · rw [if_neg (show ¬((pyStrip v.pyStr != "" && !seen.contains (pyStrip v.pyStr)) = true)
                from by simp [hval, hseen]),
              if_pos (show (pyStrip v.pyStr != "") = true from by simp [hval])]
            simp only [specDedup]
            rw [if_pos hseen]
            exact ih seen
          · rw [if_pos (show (pyStrip v.pyStr != "" && !seen.contains (pyStrip v.pyStr)) = true
                from by simp [hval, hseen]),
              if_pos (show (pyStrip v.pyStr != "") = true from by simp [hval])]
            simp only [specDedup]
            rw [if_neg hseen, ih]

theorem pyLower_empty_iff (s : String) : pyLower s = "" ↔ s = "" := by
  constructor
  · intro hl
    have hdata : s.data.map Char.toLower = [] := congrArg String.data hl
    have hnil : s.data = [] := List.map_eq_nil_iff.1 hdata
    rw [← mk_data s, hnil]
  · rintro rfl
    rfl

theorem pyStartswith_empty (q : String) (hq : q ≠ "") : pyStartswith "" q = false := by
  unfold pyStartswith
  cases hd : q.data with
  | nil =>
    exfalso
    apply hq
    rw [← mk_data q, hd]
  | cons c cs => rfl

/-- The sequential short-circuit match of get_customers equals the spec's
plain disjunction: the extra non-empty-field guards are redundant because
an empty field is never a startswith match for a non-empty query. -/
theorem customerMatches_spec (info : List (String × String)) (idQ nameQ phoneQ addrQ : String) :
    customerMatches info idQ nameQ phoneQ addrQ
      = specCustomerMatches info idQ nameQ phoneQ addrQ := by
  unfold customerMatches specCustomerMatches
  have key : ∀ q v : String, (q != "" && v != "" && pyStartswith v q)
      = (q != "" && pyStartswith v q) := by
    intro q v
    by_cases hq : q = ""
    · subst hq
      simp
    · by_cases hv : v = ""
      · subst hv
        rw [pyStartswith_empty q hq]
        simp
      · have hv' : (v != "") = true := by simpa using hv
        rw [hv']
        simp
  dsimp only
  rw [key, key, key, key]

/-- C5: Lookup extraction dedup and ordering — per column, the extraction
loop returns exactly the first-seen-order dedup of the trimmed non-blank
column values, and in particular the column b, a, b, blank, a, c yields
b, a, c in both the keyed variant (get_rowdown_data) and the unkeyed
variant (get_data dropdown options). -/
theorem claim_C5 :
    (∀ (dataRows : List (List CellValue)) (colIndex : Nat),
        extractColumn colIndex dataRows [] = specDedup (columnStrings colIndex dataRows) [])
    ∧ extractColumn 0 exampleColumnRows [] = ["b", "a", "c"]
    ∧ get_rowdown_data exampleWB = .ok [("pricingUnits", ["b", "a", "c"])]
    ∧ (get_data exampleWB).1 = [("計價單位", ["b", "a", "c"])] := by
  refine ⟨fun dataRows colIndex => extractColumn_spec colIndex dataRows [], ?_, ?_, ?_⟩
  · decide
  · rfl
  · rfl

/-- C6: Prefix filter fail-closed — when all four query strings are empty
or whitespace-only, get_customers returns the empty list no matter what
the customer table contains. -/
theorem claim_C6 (wb : Workbook) (q1 q2 q3 q4 : String)
    (h1 : pyStrip q1 = "") (h2 : pyStrip q2 = "") (h3 : pyStrip q3 = "") (h4 : pyStrip q4 = "") :
    get_customers wb q1 q2 q3 q4 = [] := by
  unfold get_customers
  rw [h1, h2, h3, h4]
  rfl

theorem claim_C6_witness :
    (pyStrip " " = "" ∧ pyStrip "" = "" ∧ pyStrip "\t" = "" ∧ pyStrip "  " = "")
    ∧ get_customers exampleWB " " "" "\t" "  " = [] :=
  ⟨⟨by decide, by decide, by decide, by decide⟩,
    claim_C6 exampleWB " " "" "\t" "  " (by decide) (by decide) (by decide) (by decide)⟩

/-- C7: Prefix filter match semantics — with at least one non-empty query,
get_customers returns exactly the candidates for which some supplied
non-empty query is a case-insensitive prefix (startswith, not substring)
of the corresponding trimmed lower-cased field: the fixed short-circuit
checking order is equivalent to the plain disjunction over the four
fields. -/
theorem claim_C7 (wb : Workbook) (q1 q2 q3 q4 : String)
    (h : ¬(pyStrip q1 = "" ∧ pyStrip q2 = "" ∧ pyStrip q3 = "" ∧ pyStrip q4 = "")) :
    get_customers wb q1 q2 q3 q4
      = ((customerCandidates wb).filter fun info =>
          specCustomerMatches info (pyLower (pyStrip q1)) (pyLower (pyStrip q2))
            (pyLower (pyStrip q3)) (pyLower (pyStrip q4))).map formatCustomer := by
  have hcond : ¬(((pyLower (pyStrip q1) == "") && (pyLower (pyStrip q2) == "")
      && (pyLower (pyStrip q3) == "") && (pyLower (pyStrip q4) == "")) = true) := by
    intro hall
    simp only [Bool.and_eq_true, beq_iff_eq, pyLower_empty_iff] at hall
    exact h ⟨by tauto, by tauto, by tauto, by tauto⟩
  unfold get_customers
  rw [if_neg hcond]
  exact congrArg _ (List.filter_congr fun info _ => customerMatches_spec info _ _ _ _)

theorem claim_C7_witness :
    (¬(pyStrip "" = "" ∧ pyStrip "acme" = "" ∧ pyStrip "" = "" ∧ pyStrip "" = ""))
    ∧ get_customers exampleWB "" "acme" "" ""
        = ((customerCandidates exampleWB).filter fun info =>
            specCustomerMatches info (pyLower (pyStrip "")) (pyLower (pyStrip "acme"))
              (pyLower (pyStrip "")) (pyLower (pyStrip ""))).map formatCustomer
    ∧ get_customers exampleWB "" "acme" "" ""
        = [{ id := "C100", name := "Acme Corp", phone := "555", address := "1 Main St" }]
    ∧ get_customers exampleWB "" "cme" "" "" = [] :=
  ⟨by decide, claim_C7 exampleWB "" "acme" "" "" (by decide), by decide, by decide⟩

/-! ## Reference-table scan lemmas -/

theorem foldl_congr_mem {α β : Type} (f g : β → α → β) :
    ∀ (l : List α) (b : β), (∀ a ∈ l, ∀ x, f x a = g x a) → l.foldl f b = l.foldl g b := by
  intro l
  induction l with
  | nil => intro b _; rfl
  | cons a t ih =>
    intro b h
    simp only [List.foldl_cons]
    rw [h a (List.mem_cons_self _ _)]
    exact ih _ fun a' ha' x => h a' (List.mem_cons_of_mem _ ha') x

theorem getD_replicate_default {α : Type} (d : α) :
    ∀ (m j : Nat), (List.replicate m d).getD j d = d := by
  intro m
  induction m with
  | zero => intro j; rfl
  | succ m ih =>
    intro j
    cases j with
    | zero => rfl
    | succ j => exact ih j

theorem padEmpty_getD (l : List String) (n i : Nat) (_hi : i < n) :
    (padEmpty l n).getD i "" = l.getD i "" := by
  unfold padEmpty
  by_cases hl : i < l.length
  · exact List.getD_append _ _ _ _ hl
  · have hge : l.length ≤ i := by omega
    rw [List.getD_append_right _ _ _ _ hge, List.getD_eq_default _ _ hge]
    exact getD_replicate_default "" _ _

/-- The per-row customer dict reads exactly the same values from a short
row as from the same row padded with empty strings up to the header count:
a missing cell is an empty-string field. -/
theorem customerInfo_pad (headers rowData : List String) :
    customerInfo headers rowData = customerInfo headers (padEmpty rowData headers.length) := by
  unfold customerInfo
  apply foldl_congr_mem
  intro p hp x
  have hlt : p.1 < headers.length := by
    obtain ⟨i, a⟩ := p
    have hb := List.mem_enumFrom (show (i, a) ∈ List.enumFrom 0 headers from hp)
    simpa using hb.2.1
  rw [padEmpty_getD _ _ _ hlt]

theorem goodsRowDict_ok (headers : List String) :
    ∀ (row : List CellValue) (i : Nat) (acc : List (String × String)),
      i + row.length ≤ headers.length → ∃ d, goodsRowDict headers row i acc = .ok d := by
  intro row
  induction row with
  | nil => intro i acc _; exact ⟨acc, rfl⟩
  | cons cv rest ih =>
    intro i acc hle
    have hle' : i + rest.length + 1 ≤ headers.length := by
      simp only [List.length_cons] at hle
      omega
    simp only [goodsRowDict]
    cases hg : headers.get? i with
    | none =>
      have := List.get?_eq_none.1 hg
      omega
    | some h => exact ih (i + 1) _ (by omega)

theorem get_goods_ok (wb : Workbook)
    (hrows : ∀ row ∈ wb.goodsRows.drop 1,
      row.length ≤ (goodsHeaders (wb.goodsRows.headD [])).length) :
    ∃ items, get_goods_data wb = .ok items
      ∧ items.length = (wb.goodsRows.drop 1).length := by
  unfold get_goods_data
  have key : ∀ (H : List String) (rows : List (List CellValue)),
      (∀ row ∈ rows, row.length ≤ H.length) →
      ∃ items, (rows.mapM fun row => (goodsRowDict H row 0 []).map formatGoods)
        = .ok items ∧ items.length = rows.length := by
    intro H rows
    induction rows with
    | nil => intro _; exact ⟨[], rfl, rfl⟩
    | cons row rest ih =>
      intro hall
      obtain ⟨d, hd⟩ := goodsRowDict_ok H row 0 []
        (by simpa using hall row (List.mem_cons_self _ _))
      obtain ⟨items, hitems, hlen⟩ := ih fun r hr => hall r (List.mem_cons_of_mem _ hr)
      refine ⟨formatGoods d :: items, ?_, by simp [hlen]⟩
      rw [List.mapM_cons, hitems, hd]
      rfl
  exact key _ _ hrows

/-- C9 as stated is false for the goods scan: a goods sheet whose header
row has a gap (so the filtered header list is shorter than the padded data
rows) makes get_goods_data abort with an IndexError instead of emitting an
entity per row. -/
theorem claim_C9_counterexample :
    get_goods_data gapGoodsWB = .error "list index out of range" := rfl

/-- C9 amended: the customer scan produces exactly one candidate entity per
data row, reading a short row exactly as the row padded with empty strings
(missing cells become empty fields), and never aborts; the goods scan
produces one entity per data row only when every data row fits inside the
falsy-filtered header list — a header gap under a full-width row makes it
abort with an IndexError. -/
theorem claim_C9 :
    (∀ headers rowData : List String,
        customerInfo headers rowData = customerInfo headers (padEmpty rowData headers.length))
    ∧ (∀ wb : Workbook, (customerCandidates wb).length = (wb.customerRows.drop 1).length)
    ∧ (∀ wb : Workbook,
        (∀ row ∈ wb.goodsRows.drop 1,
          row.length ≤ (goodsHeaders (wb.goodsRows.headD [])).length) →
        ∃ items, get_goods_data wb = .ok items
          ∧ items.length = (wb.goodsRows.drop 1).length) := by
  refine ⟨customerInfo_pad, ?_, get_goods_ok⟩
  intro wb
  simp [customerCandidates]

theorem claim_C9_witness :
    customerInfo ["k1", "k2"] ["x"] = customerInfo ["k1", "k2"] (padEmpty ["x"] 2)
    ∧ (customerCandidates exampleWB).length = (exampleWB.customerRows.drop 1).length
    ∧ (∀ row ∈ exampleWB.goodsRows.drop 1,
        row.length ≤ (goodsHeaders (exampleWB.goodsRows.headD [])).length)
    ∧ ∃ items, get_goods_data exampleWB = .ok items
        ∧ items.length = (exampleWB.goodsRows.drop 1).length :=
  ⟨claim_C9.1 ["k1", "k2"] ["x"], claim_C9.2.1 exampleWB, by decide,
    claim_C9.2.2 exampleWB (by decide)⟩

end Warehouse
